import Mathlib

/-!
Verification development for the nbonjour2 mDNS/DNS-SD library.

The definitions below are a shallow embedding of the library's source:
`lib/service.js` (service descriptors and their DNS-SD record sets),
`lib/browser.js` (the Browser state machine that correlates inbound
response packets into discovered services), and `lib/mdns-server.js`
(the Responder's authoritative record table and query answering).

JavaScript strings are Lean `String`s; JS `undefined`/absent fields are
`Option`; JS objects used as string-keyed sets are insertion-ordered
`List String` of keys.  Record `data` is a tagged variant as the records
are duck-typed in the source (string for PTR/A/AAAA, `{port, target}`
for SRV, a byte buffer for TXT).
-/

/-- Case-insensitive DNS name equality, embedding the `dns-equal`
dependency: two names are equal iff they agree character by character
after ASCII lower-casing. -/
def dnsEqual (a b : String) : Bool :=
  a.data.map Char.toLower == b.data.map Char.toLower

/-- JS `String.prototype.split(sep)` restricted to a one-character
separator, on the underlying character list.  `split` of the empty
string yields `[""]`, and separators at the ends yield empty pieces,
exactly as in JS. -/
def splitCh (c : Char) : List Char → List (List Char)
  | [] => [[]]
  | x :: xs =>
    match splitCh c xs with
    | [] => [[]]
    | y :: ys => if x = c then [] :: y :: ys else (x :: y) :: ys

/-- JS `name.split('.')`. -/
def splitDots (s : String) : List String :=
  (splitCh '.' s.data).map (fun l => ⟨l⟩)

/-- JS `parts.join('.')`. -/
def joinDots : List String → String
  | [] => ""
  | [s] => s
  | s :: rest => s ++ "." ++ joinDots rest

/-- JS `name.split('.')[0]`: the first dot-separated label of a name
(`split` never returns an empty array). -/
def firstLabel (s : String) : String :=
  (splitDots s).headD ""

/-- JS `~name.indexOf('.')` as a boolean: the name contains a dot. -/
def hasDot (s : String) : Bool :=
  s.data.contains '.'

/-- Record data, a tagged variant over the duck-typed JS record shapes:
a domain-name/address string for PTR, A and AAAA, `{port, target}` for
SRV, and a raw byte buffer for TXT. -/
inductive RData where
  | str : String → RData
  | srvd : Nat → String → RData
  | bytes : List Nat → RData
deriving DecidableEq, Repr

/-- JS `rr.data` read as a string (PTR/A/AAAA records). -/
def RData.asStr : RData → String
  | .str s => s
  | _ => ""

/-- JS `rr.data.target` (SRV records). -/
def RData.target : RData → String
  | .srvd _ t => t
  | _ => ""

/-- JS `rr.data.port` (SRV records). -/
def RData.port : RData → Nat
  | .srvd p _ => p
  | _ => 0

/-- JS `rr.data` read as a byte buffer (TXT records). -/
def RData.asBytes : RData → List Nat
  | .bytes b => b
  | _ => []

/-- A resource record `{name, type, ttl, flush?, data}`.  `flush` is an
`Option` because the source's `rrA`/`rrAaaa` constructors omit the
property entirely while the PTR/SRV/TXT constructors set it. -/
structure Rec where
  rtype : String
  name : String
  ttl : Nat
  data : RData
  flush : Option Bool := none
deriving DecidableEq, Repr

/-- Modelled from the spec: the TXT key/value codec (an external
collaborator, `dns-txt`, declared out of scope by the spec) encodes a
mapping as length-prefixed `key=value` segments per RFC 6763 §6; the
empty mapping (and the `null` mapping of an unset `txt`) encodes to the
single byte `0x00`. -/
def txtSeg (kv : String × String) : List Nat :=
  (kv.1 ++ "=" ++ kv.2).length :: (kv.1 ++ "=" ++ kv.2).data.map Char.toNat

/-- Modelled from the spec: the TXT codec's encode direction — one
length-prefixed `key=value` segment per entry; the empty (or `null`)
mapping encodes to the single byte `0x00`. -/
def txtEncode (m : List (String × String)) : List Nat :=
  if m.isEmpty then [0] else m.flatMap txtSeg

/-- Byte buffer to string (segments are ASCII in valid TXT data). -/
def bytesToString (bs : List Nat) : String :=
  ⟨bs.map Char.ofNat⟩

/-- Modelled from the spec: split one TXT segment at its first `=`
(byte 61).  Segments without an `=`, and segments starting with `=`,
carry no key/value pair; keys are ASCII lower-cased. -/
def splitEq (chunk : List Nat) : Option (String × String) :=
  let pre := chunk.takeWhile (fun b => b ≠ 61)
  let post := chunk.dropWhile (fun b => b ≠ 61)
  match post with
  | [] => none
  | _ :: rest =>
    if pre.isEmpty then none
    else some (⟨(pre.map Char.ofNat).map Char.toLower⟩, bytesToString rest)

/-- Modelled from the spec: TXT decoding walks the length-prefixed
segments in order, keeping the first occurrence of each key. -/
def txtDecodeGo : List Nat → List (String × String) → List (String × String)
  | [], acc => acc
  | b :: rest, acc =>
    let chunk := rest.take b
    let rem := rest.drop b
    let acc' :=
      match splitEq chunk with
      | none => acc
      | some (k, v) => if (acc.map Prod.fst).contains k then acc else acc ++ [(k, v)]
    txtDecodeGo rem acc'
termination_by bs _ => bs.length
decreasing_by
  simp only [List.length_cons, List.length_drop]
  omega

/-- Modelled from the spec: the TXT codec's decode direction. -/
def txtDecode (bs : List Nat) : List (String × String) :=
  txtDecodeGo bs []

/-- A TXT mapping the real byte codec represents faithfully: distinct,
nonempty, lower-case ASCII keys without `=`, ASCII values, and segments
that fit a length byte. -/
def ValidTxt (m : List (String × String)) : Prop :=
  (m.map Prod.fst).Nodup ∧
    ∀ kv ∈ m, kv.1 ≠ "" ∧
      (∀ c ∈ kv.1.data, c.toNat < 128 ∧ c ≠ '=' ∧ Char.toLower c = c) ∧
      (∀ c ∈ kv.2.data, c.toNat < 128) ∧
      (kv.1 ++ "=" ++ kv.2).length ≤ 255

/-- The stringified-type rule `"_" + type + "._" + protocol`, embedding
the `multicast-dns-service-types` `stringify` as the spec states it. -/
def stringifyType (t p : String) : String :=
  "_" ++ t ++ "._" ++ p

/-- Strip one leading underscore from a DNS label. -/
def stripU (s : String) : String :=
  match s.data with
  | '_' :: r => ⟨r⟩
  | _ => s

/-- Modelled from the spec: the `multicast-dns-service-types` `parse`
direction recovers the bare type from the first label and the protocol
from the last label of a stringified type, stripping the leading
underscores. -/
def parseType (s : String) : String × String :=
  let ls := splitDots s
  (stripU (ls.headD ""), stripU (ls.getLastD ""))

/-- Explicit publish addresses `{ipv4: [...], ipv6: [...]}`. -/
structure Addresses where
  ipv4 : List String := []
  ipv6 : List String := []
deriving DecidableEq, Repr

/-- The options record accepted by `Service`; every field may be absent
(`none` is JS `undefined`). -/
structure SOpts where
  name : Option String := none
  type : Option String := none
  protocol : Option String := none
  host : Option String := none
  port : Option Nat := none
  subtypes : Option (List String) := none
  txt : Option (List (String × String)) := none
  addresses : Option Addresses := none
  flush : Option Bool := none
deriving DecidableEq, Repr

/-- A missing JS string reads as the falsy `""` (so `!opts.name` is
`jsStr opts.name = ""`). -/
def jsStr : Option String → String
  | none => ""
  | some s => s

/-- A missing JS number reads as the falsy `0`. -/
def jsNat : Option Nat → Nat
  | none => 0
  | some n => n

/-- `opts.flush || false`. -/
def jsBool : Option Bool → Bool
  | none => false
  | some b => b

/-- A constructed service descriptor (`lib/service.js`).  `type` holds
the stringified type, `fqdn` the derived instance name.  `txt` models
the JS `null` default as `[]` (the TXT codec encodes `null` and the
empty mapping identically). -/
structure Service where
  name : String
  protocol : String
  type : String
  host : String
  port : Nat
  addresses : Option Addresses
  fqdn : String
  subtypes : Option (List String)
  txt : List (String × String)
  flush : Bool
  published : Bool
deriving DecidableEq, Repr

/-- The `Service` constructor: validates `name`, `type`, `port` with JS
truthiness checks (throwing the source's error messages), then fills
defaults.  `hostname` stands for `os.hostname()`. -/
def Service.make (hostname : String) (o : SOpts) : Except String Service :=
  if jsStr o.name = "" then .error "Required name not given"
  else if jsStr o.type = "" then .error "Required type not given"
  else if jsNat o.port = 0 then .error "Required port not given"
  else
    let protocol := if jsStr o.protocol = "" then "tcp" else jsStr o.protocol
    let stype := stringifyType (jsStr o.type) protocol
    .ok { name := jsStr o.name
          protocol := protocol
          type := stype
          host := if jsStr o.host = "" then hostname else jsStr o.host
          port := jsNat o.port
          addresses := o.addresses
          fqdn := jsStr o.name ++ "." ++ stype ++ ".local"
          subtypes := o.subtypes
          txt := o.txt.getD []
          flush := jsBool o.flush
          published := false }

/-- One entry of `os.networkInterfaces()`: internal flag, address
family, address string. -/
structure Iface where
  internal : Bool
  ipv4 : Bool
  address : String
deriving DecidableEq, Repr

/-- `rrPtrServices`: the service-enumeration PTR. -/
def rrPtrServices (s : Service) : Rec :=
  { rtype := "PTR", name := "_services._dns-sd._udp.local", ttl := 28800
    flush := some s.flush, data := .str (s.type ++ ".local") }

/-- `rrPtr`: the type PTR, or with a subtype index the subtype PTR. -/
def rrPtr (s : Service) (subtypeIndex : Option Nat) : Rec :=
  { rtype := "PTR"
    name := match subtypeIndex with
      | some i => "_" ++ ((s.subtypes.getD []).getD i "") ++ "._sub." ++ s.type ++ ".local"
      | none => s.type ++ ".local"
    ttl := 28800, flush := some s.flush, data := .str s.fqdn }

/-- `rrSrv`. -/
def rrSrv (s : Service) : Rec :=
  { rtype := "SRV", name := s.fqdn, ttl := 120, flush := some s.flush
    data := .srvd s.port s.host }

/-- `rrTxt`. -/
def rrTxt (s : Service) : Rec :=
  { rtype := "TXT", name := s.fqdn, ttl := 4500, flush := some s.flush
    data := .bytes (txtEncode s.txt) }

/-- `rrA`: the source sets no `flush` property on A records. -/
def rrA (s : Service) (ip : String) : Rec :=
  { rtype := "A", name := s.host, ttl := 120, data := .str ip }

/-- `rrAaaa`: the source sets no `flush` property on AAAA records. -/
def rrAaaa (s : Service) (ip : String) : Rec :=
  { rtype := "AAAA", name := s.host, ttl := 120, data := .str ip }

/-- `Service.prototype._records()`: the enumeration PTR, type PTR, SRV
and TXT, then one subtype PTR per subtype, then the A/AAAA records —
from the explicit `addresses` when given, else from the host's
non-internal interfaces (`ifaces` stands for `os.networkInterfaces()`,
flattened in iteration order). -/
def Service.records (ifaces : List Iface) (s : Service) : List Rec :=
  [rrPtrServices s, rrPtr s none, rrSrv s, rrTxt s]
  ++ (match s.subtypes with
      | none => []
      | some sts => (List.range sts.length).map (fun i => rrPtr s (some i)))
  ++ (match s.addresses with
      | none =>
        (ifaces.filter (fun i => !i.internal)).map
          (fun i => if i.ipv4 then rrA s i.address else rrAaaa s i.address)
      | some ad => ad.ipv4.map (rrA s) ++ ad.ipv6.map (rrAaaa s))

/-- An inbound DNS response packet as handed to the Browser. -/
structure Packet where
  answers : List Rec := []
  additionals : List Rec := []
deriving DecidableEq, Repr

/-- A service descriptor reconstructed by the Browser from correlated
records (`buildServicesFor`).  Fields start out unset (the JS object
starts as `{addresses: []}`); unset strings read as `""`. -/
structure DSvc where
  name : String := ""
  fqdn : String := ""
  host : String := ""
  port : Nat := 0
  type : String := ""
  protocol : String := ""
  subtypes : List String := []
  txt : List (String × String) := []
  rawTxt : List Nat := []
  addresses : List String := []
deriving DecidableEq, Repr

/-- One step of the SRV/TXT correlation loop in `buildServicesFor`: an
SRV fills in the identity fields (instance name from the first label,
type and protocol parsed from the middle labels, subtype presence from
the PTR's extra labels), a TXT fills in the raw and decoded `txt`. -/
def applySrvTxt (ptr : Rec) (svc : DSvc) (rr : Rec) : DSvc :=
  if rr.rtype == "SRV" then
    let parts := splitDots rr.name
    let types := parseType (joinDots ((parts.drop 1).dropLast))
    let subparts := splitDots ptr.name
    { svc with
      name := parts.headD ""
      fqdn := rr.name
      host := rr.data.target
      port := rr.data.port
      type := types.1
      protocol := types.2
      subtypes := if subparts.length > parts.length - 1
        then [(subparts.headD "").drop 1] else [] }
  else if rr.rtype == "TXT" then
    { svc with rawTxt := rr.data.asBytes, txt := txtDecode rr.data.asBytes }
  else svc

/-- `buildServicesFor(name, packet)`: among the live records (`ttl > 0`)
of the packet, each PTR whose name DNS-matches the tracked name yields a
candidate, filled from the SRV/TXT records whose name DNS-matches the
PTR's data; a candidate with no name (no SRV seen) is discarded, the
rest collect the A/AAAA records DNS-matching their host. -/
def buildServicesFor (name : String) (pk : Packet) : List DSvc :=
  let records := (pk.answers ++ pk.additionals).filter (fun rr => rr.ttl > 0)
  ((records.filter (fun rr => rr.rtype == "PTR" && dnsEqual rr.name name)).map
    (fun ptr =>
      let svc := (records.filter (fun rr =>
        (rr.rtype == "SRV" || rr.rtype == "TXT") && dnsEqual rr.name ptr.data.asStr)).foldl
        (applySrvTxt ptr) {}
      if svc.name = "" then none
      else some { svc with
        addresses := (records.filter (fun rr =>
          (rr.rtype == "A" || rr.rtype == "AAAA") && dnsEqual rr.name svc.host)).map
          (fun rr => rr.data.asStr) })).filterMap id

/-- The live records (`ttl > 0`) of a packet, answers before
additionals, as `buildServicesFor` collects them. -/
def liveRecords (pk : Packet) : List Rec :=
  (pk.answers ++ pk.additionals).filter (fun rr => rr.ttl > 0)

/-- The candidate one matching PTR yields in `buildServicesFor`: the
body of its per-PTR map step — fold the SRV/TXT records DNS-matching
the PTR's data into a descriptor, discard it (`none`) when no SRV gave
it a name, otherwise complete it with the A/AAAA records DNS-matching
its host. -/
def candidateFor (pk : Packet) (ptr : Rec) : Option DSvc :=
  let records := liveRecords pk
  let svc := (records.filter (fun rr =>
    (rr.rtype == "SRV" || rr.rtype == "TXT") && dnsEqual rr.name ptr.data.asStr)).foldl
    (applySrvTxt ptr) {}
  if svc.name = "" then none
  else some { svc with
    addresses := (records.filter (fun rr =>
      (rr.rtype == "A" || rr.rtype == "AAAA") && dnsEqual rr.name svc.host)).map
      (fun rr => rr.data.asStr) }

/-- `goodbyes(name, packet)`: the data of every PTR with `ttl = 0`
whose name DNS-matches the tracked name. -/
def goodbyes (name : String) (pk : Packet) : List String :=
  ((pk.answers ++ pk.additionals).filter (fun rr =>
    rr.rtype == "PTR" && rr.ttl == 0 && dnsEqual rr.name name)).map
    (fun rr => rr.data.asStr)

/-- Browser state: the ordered list of currently-up services and the
key set of `_serviceMap` (a JS object keyed by exact fqdn strings). -/
structure BState where
  services : List DSvc := []
  serviceMap : List String := []
deriving DecidableEq, Repr

/-- An emitted Browser event. -/
inductive Ev where
  | up : DSvc → Ev
  | down : DSvc → Ev
deriving DecidableEq, Repr

/-- Whether an event is an `up`. -/
def Ev.isUp : Ev → Bool
  | .up _ => true
  | .down _ => false

/-- `Browser.prototype._removeService(fqdn)`: splice out the first
service whose fqdn is DNS-equal to the argument, delete the map key
spelled exactly like the argument, emit `down`; no-op when nothing
matches. -/
def removeService (st : BState) (fqdn : String) : BState × List Ev :=
  match st.services.find? (fun s => dnsEqual s.fqdn fqdn) with
  | none => (st, [])
  | some s =>
    ({ services := st.services.eraseP (fun x => dnsEqual x.fqdn fqdn)
       serviceMap := st.serviceMap.filter (fun k => k ≠ fqdn) }, [.down s])

/-- `Browser.prototype._addService(service)`. -/
def addService (st : BState) (s : DSvc) : BState × List Ev :=
  ({ services := st.services ++ [s]
     serviceMap := if st.serviceMap.contains s.fqdn then st.serviceMap
       else st.serviceMap ++ [s.fqdn] }, [.up s])

/-- Replace the first element satisfying `p` by its image under `f`. -/
def updateFirst (l : List DSvc) (p : DSvc → Bool) (f : DSvc → DSvc) : List DSvc :=
  match l with
  | [] => []
  | x :: xs => if p x then f x :: xs else x :: updateFirst xs p f

/-- The per-candidate merge step of the response handler: a candidate
whose fqdn is already a map key is ignored unless it carries a new
subtype, which is appended to the cached entry and re-announced with
`up`; otherwise the candidate is added.  (When the map key exists but
no cached entry matches, the source would fault reading past the end of
`services`; that situation is unreachable while the map mirrors the
list.) -/
def processMatch (acc : BState × List Ev) (service : DSvc) : BState × List Ev :=
  let (st, evs) := acc
  if st.serviceMap.contains service.fqdn then
    if service.subtypes.isEmpty then acc
    else
      match st.services.find? (fun x => x.fqdn == service.fqdn) with
      | none => acc
      | some existing =>
        if existing.subtypes.contains (service.subtypes.headD "") then acc
        else
          let newList := updateFirst st.services (fun x => x.fqdn == service.fqdn)
            (fun x => { x with subtypes := x.subtypes ++ [service.subtypes.headD ""] })
          let upd := { existing with subtypes := existing.subtypes ++ [service.subtypes.headD ""] }
          ({ st with services := newList }, evs ++ [.up upd])
  else
    let (st2, e) := addService st service
    (st2, evs ++ e)

/-- `_removeService` folded over a list of goodbye data, accumulating
the emitted events. -/
def removeAll (st : BState) (ds : List String) : BState × List Ev :=
  ds.foldl
    (fun acc d =>
      let r := removeService acc.1 d
      (r.1, acc.2 ++ r.2))
    (st, [])

/-- The per-name merge loop folded over the candidate list. -/
def addAll (st : BState) (cands : List DSvc) : BState × List Ev :=
  cands.foldl processMatch (st, [])

/-- The goodbye sweep for one tracked name: `_removeService` over every
goodbye datum, in packet order. -/
def goodbyePhase (st : BState) (name : String) (pk : Packet) : BState × List Ev :=
  removeAll st (goodbyes name pk)

/-- The registration sweep for one tracked name: merge every candidate
built from the packet. -/
def additionPhase (st : BState) (name : String) (pk : Packet) : BState × List Ev :=
  let cands := buildServicesFor name pk
  if cands.isEmpty then (st, [])
  else addAll st cands

/-- One tracked name's slice of the response handler: goodbyes first,
then additions. -/
def handleName (acc : BState × List Ev) (name : String) (pk : Packet) :
    BState × List Ev :=
  let r1 := goodbyePhase acc.1 name pk
  let r2 := additionPhase r1.1 name pk
  (r2.1, acc.2 ++ r1.2 ++ r2.2)

/-- `Browser.prototype.start`'s `_onresponse` body after the wildcard
scan: iterate the tracked names (`Object.keys(nameMap)` in insertion
order), per name removing the goodbyes then registering the new
services. -/
def handleResponse (nameMap : List String) (st : BState) (pk : Packet) :
    BState × List Ev :=
  nameMap.foldl (fun acc name => handleName acc name pk) (st, [])

/-- `nameInMap(recordName)`: whether any tracked name is `===` to the
argument.  The source calls it on `answer.map`, a property response
records do not have, so the argument is always `undefined` (`none`). -/
def nameInMap (names : List String) (recordName : Option String) : Bool :=
  names.any (fun n => recordName == some n)

/-- The wildcard-discovery scan of `_onresponse`: for each PTR answer,
skip it when `nameInMap(answer.map)` holds (never, as `answer.map` is
undefined) or when `answer.name` is already a key of `nameMap`;
otherwise set `nameMap[answer.data]` and issue a PTR query for
`answer.data`.  Returns the new key set and the queries issued. -/
def wildcardScan (names : List String) (nameMap : List String)
    (answers : List Rec) : List String × List String :=
  answers.foldl
    (fun acc a =>
      if a.rtype != "PTR" then acc
      else if nameInMap names none then acc
      else if acc.1.contains a.name then acc
      else ((if acc.1.contains a.data.asStr then acc.1 else acc.1 ++ [a.data.asStr]),
            acc.2 ++ [a.data.asStr]))
    (nameMap, [])

/-- The Responder's record table: type → bucket of records, as an
insertion-ordered association list (a JS object keyed by type). -/
abbrev Registry := List (String × List Rec)

/-- Object property lookup on the record table. -/
def regLookup (reg : Registry) (ty : String) : Option (List Rec) :=
  (reg.find? (fun kv => kv.1 == ty)).map Prod.snd

/-- Replace the bucket stored under an existing key. -/
def regUpdate : Registry → String → List Rec → Registry
  | [], _, _ => []
  | kv :: rest, ty, v =>
    if kv.1 == ty then (ty, v) :: rest else kv :: regUpdate rest ty v

/-- `isDuplicateRecord(a)(b)`: same type, same name, deep-equal data.-/
def isDuplicateRecord (a b : Rec) : Bool :=
  a.rtype == b.rtype && a.name == b.name && a.data == b.data

/-- `Server.prototype.register` for one record: create the bucket when
missing, drop the record when a duplicate is present, else append. -/
def register1 (reg : Registry) (record : Rec) : Registry :=
  match regLookup reg record.rtype with
  | none => reg ++ [(record.rtype, [record])]
  | some bucket =>
    if bucket.any (isDuplicateRecord record) then reg
    else regUpdate reg record.rtype (bucket ++ [record])

/-- `Server.prototype.register` over a record list. -/
def register (reg : Registry) (records : List Rec) : Registry :=
  records.foldl register1 reg

/-- The bucket stored under a type, empty when the key is missing. -/
def bucketD (reg : Registry) (ty : String) : List Rec :=
  (regLookup reg ty).getD []

/-- Whether the table already holds a duplicate of `r` in `r`'s own
type bucket. -/
def dupPresent (reg : Registry) (r : Rec) : Bool :=
  (bucketD reg r.rtype).any (isDuplicateRecord r)

/-- `Server.prototype._recordsFor(name, type)`: the bucket of the
requested type filtered by the name-match rule — compare the full
record name when the question name has a dot, else only the record
name's first label, both under DNS case-insensitive equality. -/
def recordsFor (reg : Registry) (name ty : String) : List Rec :=
  match regLookup reg ty with
  | none => []
  | some bucket =>
    bucket.filter (fun record =>
      dnsEqual (if hasDot name then record.name else firstLabel record.name) name)

/-- One question of an inbound query. -/
structure Question where
  name : String
  qtype : String
deriving DecidableEq, Repr

/-- The response handed to the transport for one question. -/
structure MResponse where
  answers : List Rec
  additionals : List Rec
deriving DecidableEq, Repr

/-- The `ANY` answers: every name-matching record across every type
bucket, in table order (`Object.keys` then flatten depth 1). -/
def recordsForAny (reg : Registry) (name : String) : List Rec :=
  (reg.map (fun kv => recordsFor reg name kv.1)).flatten

/-- The `unique()` filter of the source: keep the first occurrence of
each element. -/
def dedupFirst (l : List String) : List String :=
  l.foldl (fun acc x => if acc.contains x then acc else acc ++ [x]) []

/-- `Server.prototype._respondToQuery` for one question: build the
answers (all buckets for `ANY`, one bucket otherwise), answer nothing
when they are empty, and for non-`ANY` questions append to the
additionals the SRV/TXT records named by each PTR answer's data and
then the A/AAAA records named by each distinct SRV target. -/
def respondToQuery (reg : Registry) (q : Question) : Option MResponse :=
  let answers := if q.qtype == "ANY" then recordsForAny reg q.name
    else recordsFor reg q.name q.qtype
  if answers.isEmpty then none
  else
    let additionals :=
      if q.qtype == "ANY" then []
      else
        let add1 := answers.foldl
          (fun acc answer =>
            if answer.rtype == "PTR"
            then acc ++ recordsFor reg answer.data.asStr "SRV"
                     ++ recordsFor reg answer.data.asStr "TXT"
            else acc) []
        let targets := dedupFirst
          ((add1.filter (fun r => r.rtype == "SRV")).map (fun r => r.data.target))
        targets.foldl
          (fun acc t => acc ++ recordsFor reg t "A" ++ recordsFor reg t "AAAA") add1
    some { answers := answers, additionals := additionals }

/-- Options with an empty (JS-falsy, but present) `name`. -/
def opts10 : SOpts := { name := some "", type := some "http", port := some 3000 }

/-- A concrete descriptor with `flush = true` and one explicit IPv4
address. -/
def svc9 : Service :=
  { name := "Foo", protocol := "tcp", type := "_http._tcp", host := "example.com"
    port := 3000, addresses := some { ipv4 := ["1.2.3.4"], ipv6 := [] }
    fqdn := "Foo._http._tcp.local", subtypes := none, txt := [], flush := true
    published := false }

/-- A packet announcing `X._http._tcp.local` with a PTR and an SRV but
no TXT record. -/
def noTxtPk : Packet :=
  { answers :=
      [{ rtype := "PTR", name := "_http._tcp.local", ttl := 120
         data := .str "X._http._tcp.local" },
       { rtype := "SRV", name := "X._http._tcp.local", ttl := 120
         data := .srvd 3000 "host.local" }] }

/-- A packet with a single PTR for the tracked type and nothing else. -/
def ptrOnlyPk : Packet :=
  { answers :=
      [{ rtype := "PTR", name := "_http._tcp.local", ttl := 120
         data := .str "X._http._tcp.local" }] }

/-- A mixed packet: a full announcement of `X._http._tcp.local` (PTR
plus SRV) together with an SRV-less PTR for `Y._http._tcp.local`. -/
def mixedPk : Packet :=
  { answers :=
      [{ rtype := "PTR", name := "_http._tcp.local", ttl := 120
         data := .str "X._http._tcp.local" },
       { rtype := "SRV", name := "X._http._tcp.local", ttl := 120
         data := .srvd 3000 "host.local" },
       { rtype := "PTR", name := "_http._tcp.local", ttl := 120
         data := .str "Y._http._tcp.local" }] }

/-- The SRV-less PTR of the mixed packet. -/
def ySrvLessPtr : Rec :=
  { rtype := "PTR", name := "_http._tcp.local", ttl := 120
    data := .str "Y._http._tcp.local" }

/-- The descriptor the mixed packet's announcement reconstructs. -/
def xDesc : DSvc :=
  { name := "X", fqdn := "X._http._tcp.local", host := "host.local"
    port := 3000, type := "http", protocol := "tcp" }

/-- A full announcement for `X._http._tcp.local`. -/
def annPk : Packet :=
  { answers :=
      [{ rtype := "PTR", name := "_http._tcp.local", ttl := 120
         data := .str "X._http._tcp.local" },
       { rtype := "SRV", name := "X._http._tcp.local", ttl := 120
         data := .srvd 3000 "host.local" },
       { rtype := "TXT", name := "X._http._tcp.local", ttl := 4500
         data := .bytes [0] }] }

/-- A goodbye whose PTR data spells the fqdn in different case
(`x._...` against the announced `X._...`). -/
def caseByePk : Packet :=
  { answers :=
      [{ rtype := "PTR", name := "_http._tcp.local", ttl := 0
         data := .str "x._http._tcp.local" }] }

/-- A goodbye PTR with exactly the announced spelling. -/
def exactByePk : Packet :=
  { answers :=
      [{ rtype := "PTR", name := "_http._tcp.local", ttl := 0
         data := .str "X._http._tcp.local" }] }

/-- The wildcard enumeration answer advertising `_http._tcp.local`. -/
def wildAns : Rec :=
  { rtype := "PTR", name := "_services._dns-sd._udp.local", ttl := 4500
    data := .str "_http._tcp.local" }

/-- The descriptor a Browser reconstructs from the record set of a
publish with instance name `n`, bare type `t`, protocol `p`, host `h`,
port `prt`, explicit addresses `ad` and TXT mapping `txtm`. -/
def roundTripDescriptor (n t p h : String) (prt : Nat) (ad : Addresses)
    (txtm : List (String × String)) : DSvc :=
  { name := n
    fqdn := n ++ "." ++ stringifyType t p ++ ".local"
    host := h
    port := prt
    type := t
    protocol := p
    subtypes := []
    txt := txtm
    rawTxt := txtEncode txtm
    addresses := ad.ipv4 ++ ad.ipv6 }

/-- Concrete publish options exercising the round-trip. -/
def c1opts : SOpts :=
  { name := some "Foo Bar"
    type := some "http"
    protocol := some "tcp"
    host := some "example.com"
    port := some 3000
    subtypes := none
    txt := some [("foo", "bar")]
    addresses := some { ipv4 := ["13.14.15.16"], ipv6 := ["2001:db8::1"] } }

/-- The descriptor `Service.make` builds from `c1opts`. -/
def c1svc : Service :=
  { name := "Foo Bar"
    protocol := "tcp"
    type := stringifyType "http" "tcp"
    host := "example.com"
    port := 3000
    addresses := some { ipv4 := ["13.14.15.16"], ipv6 := ["2001:db8::1"] }
    fqdn := "Foo Bar" ++ "." ++ stringifyType "http" "tcp" ++ ".local"
    subtypes := none
    txt := [("foo", "bar")]
    flush := jsBool c1opts.flush
    published := false }

theorem dnsEqual_refl (a : String) : dnsEqual a a = true := by
  simp [dnsEqual]

/-- C6: the Responder's name-match rule.  A stored record of the
requested type answers a question iff the question name (when it has a
dot) DNS-equals the full record name, or (when it has no dot)
DNS-equals the first dot-separated label of the record name. -/
theorem recordsFor_name_match (reg : Registry) (name ty : String) (r : Rec) :
    r ∈ recordsFor reg name ty ↔
      r ∈ bucketD reg ty ∧
        dnsEqual (if hasDot name then r.name else firstLabel r.name) name = true := by
  unfold recordsFor bucketD
  cases h : regLookup reg ty with
  | none => simp
  | some bucket => simp [List.mem_filter]

/-- C10 counterexample: `{name: "", type: "http", port: 3000}` has all
three fields present, yet construction raises, so "raises iff a field
is absent" fails in the only-if direction. -/
theorem service_make_present_but_error :
    opts10.name ≠ none ∧ opts10.type ≠ none ∧ opts10.port ≠ none ∧
      Service.make "myhost" opts10 = .error "Required name not given" := by
  refine ⟨by simp [opts10], by simp [opts10], by simp [opts10], rfl⟩

/-- C10 (amended): construction fails exactly when `name`, `type` or
`port` is absent or JS-falsy (empty string, zero), with the error
message naming the first such field; otherwise it succeeds. -/
theorem service_make_error_characterization (hostname : String) (o : SOpts) :
    ((∃ s, Service.make hostname o = .ok s) ↔
        (jsStr o.name ≠ "" ∧ jsStr o.type ≠ "" ∧ jsNat o.port ≠ 0))
    ∧ (Service.make hostname o = .error "Required name not given" ↔ jsStr o.name = "")
    ∧ (Service.make hostname o = .error "Required type not given" ↔
        (jsStr o.name ≠ "" ∧ jsStr o.type = ""))
    ∧ (Service.make hostname o = .error "Required port not given" ↔
        (jsStr o.name ≠ "" ∧ jsStr o.type ≠ "" ∧ jsNat o.port = 0)) := by
  by_cases h1 : jsStr o.name = "" <;> by_cases h2 : jsStr o.type = "" <;>
    by_cases h3 : jsNat o.port = 0 <;>
      simp [Service.make, h1, h2, h3]

/-- C9 counterexample: for a descriptor with `flush = true` and an
explicit IPv4 address, not every materialized record carries the
descriptor's flush bit — the A record has no flush field at all. -/
theorem records_flush_counterexample :
    ¬ ∀ r ∈ Service.records [] svc9, r.flush = some svc9.flush := by
  decide

/-- C9 (amended): the service-enumeration PTR, type PTR, subtype PTRs,
SRV and TXT records of `_records()` all carry the descriptor's flush
bit, while the A and AAAA records carry no flush field. -/
theorem records_flush_propagation (ifaces : List Iface) (s : Service) (r : Rec)
    (hr : r ∈ Service.records ifaces s) :
    r.flush = if r.rtype = "A" ∨ r.rtype = "AAAA" then none else some s.flush := by
  unfold Service.records at hr
  rw [List.mem_append, List.mem_append] at hr
  rcases hr with (hr | hr) | hr
  · simp only [List.mem_cons, List.mem_singleton] at hr
    rcases hr with rfl | rfl | rfl | rfl | h
    · simp [rrPtrServices]
    · simp [rrPtr]
    · simp [rrSrv]
    · simp [rrTxt]
    · simp at h
  · rcases hsub : s.subtypes with _ | sts
    · rw [hsub] at hr
      simp at hr
    · rw [hsub] at hr
      simp only [List.mem_map] at hr
      obtain ⟨i, _, rfl⟩ := hr
      simp [rrPtr]
  · rcases had : s.addresses with _ | ad
    · rw [had] at hr
      simp only [List.mem_map] at hr
      obtain ⟨i, _, rfl⟩ := hr
      by_cases hi : i.ipv4 <;> simp [hi, rrA, rrAaaa]
    · rw [had] at hr
      rw [List.mem_append] at hr
      rcases hr with hr | hr <;> simp only [List.mem_map] at hr <;>
        obtain ⟨ip, _, rfl⟩ := hr
      · simp [rrA]
      · simp [rrAaaa]

theorem records_flush_propagation_witness :
    (rrSrv svc9).flush =
      if (rrSrv svc9).rtype = "A" ∨ (rrSrv svc9).rtype = "AAAA" then none
      else some svc9.flush :=
  records_flush_propagation [] svc9 (rrSrv svc9) (by decide)

/-- C8: evaluating the wildcard scan at the failing input.  A packet
carrying the same enumeration PTR answer twice issues the PTR query for
`_http._tcp.local` twice, although the key entered `nameMap` on the
first answer; likewise a browser whose `nameMap` already tracks
`_http._tcp.local` re-issues the query on the next enumeration answer,
because the source guards on `answer.name` instead of `answer.data`. -/
theorem wildcard_requery_bug :
    wildcardScan ["_services._dns-sd._udp.local"] [] [wildAns, wildAns]
      = (["_http._tcp.local"], ["_http._tcp.local", "_http._tcp.local"])
    ∧ (wildcardScan ["_services._dns-sd._udp.local"] ["_http._tcp.local"] [wildAns]).2
      = ["_http._tcp.local"] := by
  exact ⟨rfl, rfl⟩

/-- C2: evaluating the Browser at the failing input.  After announcing
`X._http._tcp.local` and then handling a goodbye whose data spells the
fqdn as `x._http._tcp.local`, the service is spliced out of
`services[]` (the lookup is DNS-case-insensitive) but the exact-string
`delete serviceMap[fqdn]` misses the stored key, leaving
`serviceMap` set for an fqdn no descriptor has. -/
theorem service_map_desync_bug :
    ((handleResponse ["_http._tcp.local"]
        (handleResponse ["_http._tcp.local"] {} annPk).1 caseByePk).1.services = [])
    ∧ ((handleResponse ["_http._tcp.local"]
        (handleResponse ["_http._tcp.local"] {} annPk).1 caseByePk).1.serviceMap
        = ["X._http._tcp.local"]) := by
  exact ⟨rfl, rfl⟩

/-- C3 counterexample: a packet with a matching PTR and a correlated
SRV but no TXT record at all still produces a candidate, and a fresh
Browser handling it emits one `up` — a missing TXT does not suppress
the up. -/
theorem missing_txt_still_up :
    ((noTxtPk.answers ++ noTxtPk.additionals).all (fun rr => rr.rtype != "TXT") = true)
    ∧ (handleResponse ["_http._tcp.local"] {} noTxtPk).2.countP Ev.isUp = 1 := by
  exact ⟨rfl, rfl⟩

theorem regLookup_cons (k : String) (v : List Rec) (rest : Registry) (ty : String) :
    regLookup ((k, v) :: rest) ty = if k == ty then some v else regLookup rest ty := by
  by_cases h : (k == ty) = true
  · simp [regLookup, List.find?_cons_of_pos, h]
  · rw [Bool.not_eq_true] at h
    simp only [regLookup, List.find?]
    rw [h]
    simp [regLookup, h]

theorem regLookup_append_singleton (reg : Registry) (k : String) (v : List Rec)
    (ty : String) (h : regLookup reg ty = none) :
    regLookup (reg ++ [(k, v)]) ty = if k == ty then some v else none := by
  induction reg with
  | nil => simp [regLookup_cons, regLookup]
  | cons kv rest ih =>
    rw [regLookup_cons] at h
    rw [List.cons_append, regLookup_cons]
    by_cases hk : (kv.1 == ty) = true
    · rw [if_pos hk] at h
      exact absurd h (by simp)
    · rw [if_neg hk] at h ⊢
      exact ih h

theorem regLookup_append_singleton_of_some (reg : Registry) (k : String)
    (v : List Rec) (ty : String) (b : List Rec) (h : regLookup reg ty = some b) :
    regLookup (reg ++ [(k, v)]) ty = some b := by
  induction reg with
  | nil => simp [regLookup] at h
  | cons kv rest ih =>
    rw [regLookup_cons] at h
    rw [List.cons_append, regLookup_cons]
    by_cases hk : (kv.1 == ty) = true
    · rw [if_pos hk] at h ⊢
      exact h
    · rw [if_neg hk] at h ⊢
      exact ih h

theorem regLookup_regUpdate_self (reg : Registry) (ty : String) (v bucket : List Rec)
    (h : regLookup reg ty = some bucket) :
    regLookup (regUpdate reg ty v) ty = some v := by
  induction reg with
  | nil => simp [regLookup] at h
  | cons kv rest ih =>
    rw [regLookup_cons] at h
    unfold regUpdate
    by_cases hk : (kv.1 == ty) = true
    · rw [if_pos hk, regLookup_cons]
      simp
    · rw [if_neg hk] at h
      rw [if_neg hk, regLookup_cons, if_neg hk]
      exact ih h

theorem regLookup_regUpdate_other (reg : Registry) (ty ty2 : String) (v : List Rec)
    (h : (ty == ty2) = false) :
    regLookup (regUpdate reg ty v) ty2 = regLookup reg ty2 := by
  induction reg with
  | nil => rfl
  | cons kv rest ih =>
    unfold regUpdate
    by_cases hk : (kv.1 == ty) = true
    · have h1 : kv.1 = ty := by rwa [beq_iff_eq] at hk
      rw [if_pos hk, regLookup_cons, regLookup_cons, h1, h]
      simp
    · rw [if_neg hk, regLookup_cons, regLookup_cons, ih]

theorem isDuplicateRecord_self (r : Rec) : isDuplicateRecord r r = true := by
  simp [isDuplicateRecord]

theorem register1_of_dup (reg : Registry) (r : Rec) (h : dupPresent reg r = true) :
    register1 reg r = reg := by
  unfold dupPresent bucketD at h
  cases hl : regLookup reg r.rtype with
  | none =>
    rw [hl] at h
    simp at h
  | some bucket =>
    rw [hl] at h
    simp only [Option.getD_some] at h
    simp [register1, hl, h]

theorem dupPresent_register1_self (reg : Registry) (r : Rec) :
    dupPresent (register1 reg r) r = true := by
  cases hl : regLookup reg r.rtype with
  | none =>
    simp only [register1, hl]
    unfold dupPresent bucketD
    rw [regLookup_append_singleton reg r.rtype [r] r.rtype hl]
    simp [isDuplicateRecord_self]
  | some bucket =>
    by_cases hd : bucket.any (isDuplicateRecord r) = true
    · simp only [register1, hl, hd, if_true]
      unfold dupPresent bucketD
      rw [hl]
      simpa using hd
    · have hd2 : bucket.any (isDuplicateRecord r) = false := by
        rwa [Bool.not_eq_true] at hd
      simp only [register1, hl, hd2, Bool.false_eq_true, if_false]
      unfold dupPresent bucketD
      rw [regLookup_regUpdate_self reg r.rtype (bucket ++ [r]) bucket hl]
      simp [isDuplicateRecord_self]

theorem dupPresent_register1_mono (reg : Registry) (q r : Rec)
    (h : dupPresent reg q = true) :
    dupPresent (register1 reg r) q = true := by
  have hq : ∃ bq, regLookup reg q.rtype = some bq ∧ bq.any (isDuplicateRecord q) = true := by
    unfold dupPresent bucketD at h
    cases hql : regLookup reg q.rtype with
    | none =>
      rw [hql] at h
      simp at h
    | some bq =>
      rw [hql] at h
      exact ⟨bq, rfl, by simpa using h⟩
  obtain ⟨bq, hql, hany⟩ := hq
  cases hl : regLookup reg r.rtype with
  | none =>
    simp only [register1, hl]
    unfold dupPresent bucketD
    rw [regLookup_append_singleton_of_some reg r.rtype [r] q.rtype bq hql]
    simpa using hany
  | some bucket =>
    by_cases hd : bucket.any (isDuplicateRecord r) = true
    · simp only [register1, hl, hd, if_true]
      exact h
    · have hd2 : bucket.any (isDuplicateRecord r) = false := by
        rwa [Bool.not_eq_true] at hd
      simp only [register1, hl, hd2, Bool.false_eq_true, if_false]
      unfold dupPresent bucketD
      by_cases hk : r.rtype = q.rtype
      · rw [← hk] at hql
        have hb : bucket = bq := Option.some.inj (hl.symm.trans hql)
        rw [← hk, regLookup_regUpdate_self reg r.rtype (bucket ++ [r]) bucket hl]
        simp [List.any_append, hb, hany]
      · have hk2 : (r.rtype == q.rtype) = false := by simp [hk]
        rw [regLookup_regUpdate_other reg r.rtype q.rtype (bucket ++ [r]) hk2, hql]
        simpa using hany

theorem dupPresent_register_mono (rs : List Rec) (reg : Registry) (q : Rec)
    (h : dupPresent reg q = true) :
    dupPresent (register reg rs) q = true := by
  induction rs generalizing reg with
  | nil => exact h
  | cons r rest ih => exact ih (register1 reg r) (dupPresent_register1_mono reg q r h)

theorem dupPresent_register_mem (rs : List Rec) (reg : Registry) (r : Rec)
    (h : r ∈ rs) :
    dupPresent (register reg rs) r = true := by
  induction rs generalizing reg with
  | nil => simp at h
  | cons x rest ih =>
    rcases List.mem_cons.mp h with rfl | hmem
    · exact dupPresent_register_mono rest (register1 reg r) r
        (dupPresent_register1_self reg r)
    · exact ih (register1 reg x) hmem

theorem register_of_all_dup (rs : List Rec) (reg : Registry)
    (h : ∀ r ∈ rs, dupPresent reg r = true) :
    register reg rs = reg := by
  induction rs with
  | nil => rfl
  | cons x rest ih =>
    unfold register
    rw [List.foldl_cons, register1_of_dup reg x (h x (by simp))]
    exact ih (fun r hr => h r (by simp [hr]))

/-- C5: `register` is idempotent — a record with a duplicate already in
its type bucket is dropped unchanged, and registering the same record
list `n ≥ 1` times into any table, the empty one included, leaves the
table exactly as registering it once. -/
theorem register_idempotent (reg : Registry) (rs : List Rec) (r : Rec) (n : Nat)
    (hn : 0 < n) :
    (dupPresent reg r = true → register1 reg r = reg)
    ∧ (fun g => register g rs)^[n] reg = register reg rs := by
  refine ⟨fun hdup => register1_of_dup reg r hdup, ?_⟩
  rcases n with _ | m
  · omega
  clear hn
  induction m with
  | zero => simp
  | succ k ih =>
    rw [Function.iterate_succ_apply', ih]
    exact register_of_all_dup rs (register reg rs)
      (fun q hq => dupPresent_register_mem rs reg q hq)

/-- A one-record registry holding the duplicate of `dupRec`. -/
def dupRec : Rec :=
  { rtype := "PTR", name := "_http._tcp.local", ttl := 28800
    data := .str "X._http._tcp.local" }

theorem register_idempotent_witness :
    (dupPresent ([] : Registry) dupRec = true → register1 ([] : Registry) dupRec = [])
    ∧ (fun g => register g [dupRec, dupRec])^[2] ([] : Registry)
        = register ([] : Registry) [dupRec, dupRec] :=
  register_idempotent [] [dupRec, dupRec] dupRec 2 (by decide)

theorem foldl_append_filter2 {α β : Type} (l : List α) (p : α → Bool)
    (g h : α → List β) (init : List β) :
    l.foldl (fun acc a => if p a then acc ++ g a ++ h a else acc) init
      = init ++ (l.filter p).flatMap (fun a => g a ++ h a) := by
  induction l generalizing init with
  | nil => simp
  | cons x xs ih =>
    rw [List.foldl_cons]
    by_cases hx : p x = true
    · rw [if_pos hx, ih, List.filter_cons_of_pos hx, List.flatMap_cons]
      simp [List.append_assoc]
    · rw [if_neg hx, ih, List.filter_cons_of_neg (by simpa using hx)]

theorem foldl_append_all2 {α β : Type} (l : List α) (g h : α → List β)
    (init : List β) :
    l.foldl (fun acc a => acc ++ g a ++ h a) init
      = init ++ l.flatMap (fun a => g a ++ h a) := by
  induction l generalizing init with
  | nil => simp
  | cons x xs ih =>
    rw [List.foldl_cons, ih, List.flatMap_cons]
    simp [List.append_assoc]

/-- C7: the Responder's answer/additionals derivation.  For an `ANY`
question the answers are all name-matching records across every type
bucket and the additionals are empty; otherwise the additionals are the
stored SRV and TXT records named by each PTR answer's data, followed by
the stored A and AAAA records named by each distinct target of the SRV
records so added; a question with no answers produces no response. -/
theorem respond_to_query_characterization (reg : Registry) (q : Question) :
    respondToQuery reg q =
      (if (if q.qtype == "ANY" then recordsForAny reg q.name
          else recordsFor reg q.name q.qtype).isEmpty then none
       else if q.qtype == "ANY" then
         some { answers := recordsForAny reg q.name, additionals := [] }
       else
         some { answers := recordsFor reg q.name q.qtype
                additionals :=
                  ((recordsFor reg q.name q.qtype).filter
                      (fun a => a.rtype == "PTR")).flatMap
                    (fun a => recordsFor reg a.data.asStr "SRV"
                      ++ recordsFor reg a.data.asStr "TXT")
                  ++ (dedupFirst
                      (((((recordsFor reg q.name q.qtype).filter
                            (fun a => a.rtype == "PTR")).flatMap
                          (fun a => recordsFor reg a.data.asStr "SRV"
                            ++ recordsFor reg a.data.asStr "TXT")).filter
                          (fun r => r.rtype == "SRV")).map
                        (fun r => r.data.target))).flatMap
                    (fun t => recordsFor reg t "A" ++ recordsFor reg t "AAAA") }) := by
  unfold respondToQuery
  by_cases hany : (q.qtype == "ANY") = true
  · simp [hany]
  · rw [Bool.not_eq_true] at hany
    simp only [hany, Bool.false_eq_true, if_false]
    by_cases he : (recordsFor reg q.name q.qtype).isEmpty = true
    · simp [he]
    · simp only [he, Bool.false_eq_true, if_false]
      rw [foldl_append_filter2, foldl_append_all2]
      simp

theorem foldl_applySrvTxt_name (ptr : Rec) (l : List Rec) (svc : DSvc)
    (h : ∀ rr ∈ l, (rr.rtype == "SRV") = false) :
    (l.foldl (applySrvTxt ptr) svc).name = svc.name := by
  induction l generalizing svc with
  | nil => rfl
  | cons rr rest ih =>
    rw [List.foldl_cons]
    have hrr : (rr.rtype == "SRV") = false := h rr (by simp)
    have hname : (applySrvTxt ptr svc rr).name = svc.name := by
      unfold applySrvTxt
      rw [hrr]
      simp only [Bool.false_eq_true, if_false]
      by_cases ht : (rr.rtype == "TXT") = true
      · rw [if_pos ht]
      · rw [if_neg ht]
    rw [ih (applySrvTxt ptr svc rr) (fun x hx => h x (by simp [hx])), hname]

theorem removeAll_no_up (ds : List String) (st : BState) :
    ((removeAll st ds).2.countP Ev.isUp) = 0 := by
  suffices hgen : ∀ (ds : List String) (st : BState) (evs : List Ev),
      ((ds.foldl (fun acc d =>
        let r := removeService acc.1 d
        (r.1, acc.2 ++ r.2)) (st, evs)).2.countP Ev.isUp) = evs.countP Ev.isUp by
    exact hgen ds st []
  intro ds
  induction ds with
  | nil => intro st evs; rfl
  | cons d rest ih =>
    intro st evs
    rw [List.foldl_cons]
    rw [ih]
    unfold removeService
    cases st.services.find? (fun s => dnsEqual s.fqdn d) with
    | none => simp
    | some s => simp [List.countP_append, Ev.isUp, List.countP_cons]

theorem buildServicesFor_empty_of_no_srv (pk : Packet) (name : String)
    (hsrv : ∀ rr ∈ pk.answers ++ pk.additionals, rr.rtype = "SRV" →
      ∀ ptr ∈ pk.answers ++ pk.additionals, ptr.rtype = "PTR" →
        dnsEqual rr.name ptr.data.asStr = false) :
    buildServicesFor name pk = [] := by
  unfold buildServicesFor
  rw [List.filterMap_map, List.filterMap_eq_nil_iff]
  intro ptr hptr
  rw [List.mem_filter] at hptr
  obtain ⟨hptrRecs, hptrCond⟩ := hptr
  rw [List.mem_filter] at hptrRecs
  obtain ⟨hptrMem, hptrLive⟩ := hptrRecs
  rw [Bool.and_eq_true] at hptrCond
  have hptrType : ptr.rtype = "PTR" := by
    have := hptrCond.1
    simpa using this
  have hfold : ∀ rr ∈ ((pk.answers ++ pk.additionals).filter
      (fun rr => rr.ttl > 0)).filter (fun rr =>
        (rr.rtype == "SRV" || rr.rtype == "TXT") && dnsEqual rr.name ptr.data.asStr),
      (rr.rtype == "SRV") = false := by
    intro rr hrr
    rw [List.mem_filter] at hrr
    obtain ⟨hrrRecs, hrrCond⟩ := hrr
    rw [List.mem_filter] at hrrRecs
    rw [Bool.and_eq_true] at hrrCond
    by_cases hs : rr.rtype = "SRV"
    · have := hsrv rr hrrRecs.1 hs ptr hptrMem hptrType
      rw [this] at hrrCond
      exact absurd hrrCond.2 (by simp)
    · simpa using hs
  simp only [Function.comp_apply, id_eq]
  rw [if_pos ((foldl_applySrvTxt_name ptr _ {} hfold).trans rfl)]

theorem splitCh_ne_nil (c : Char) (l : List Char) : splitCh c l ≠ [] := by
  induction l with
  | nil => simp [splitCh]
  | cons x xs ih =>
    unfold splitCh
    cases h : splitCh c xs with
    | nil => simp
    | cons y ys =>
      by_cases hx : x = c <;> simp [hx]

theorem splitCh_cons_eq (c x : Char) (xs : List Char) :
    splitCh c (x :: xs) = match splitCh c xs with
      | [] => [[]]
      | y :: ys => if x = c then [] :: y :: ys else (x :: y) :: ys := by
  rw [splitCh]

theorem splitCh_of_not_mem (c : Char) (l : List Char) (h : c ∉ l) :
    splitCh c l = [l] := by
  induction l with
  | nil => rfl
  | cons x xs ih =>
    have hx : x ≠ c := fun he => h (he ▸ List.mem_cons_self x xs)
    have hxs : c ∉ xs := fun hm => h (List.mem_cons_of_mem x hm)
    rw [splitCh_cons_eq, ih hxs]
    simp [hx]

theorem splitCh_append (c : Char) (a b : List Char) (ha : c ∉ a) :
    splitCh c (a ++ c :: b) = a :: splitCh c b := by
  induction a with
  | nil =>
    simp only [List.nil_append]
    rw [splitCh_cons_eq]
    cases h : splitCh c b with
    | nil => exact absurd h (splitCh_ne_nil c b)
    | cons y ys => simp
  | cons x xs ih =>
    have hx : x ≠ c := fun he => ha (he ▸ List.mem_cons_self x xs)
    have hxs : c ∉ xs := fun hm => ha (List.mem_cons_of_mem x hm)
    rw [List.cons_append, splitCh_cons_eq, ih hxs]
    simp [hx]

theorem string_data_append (a b : String) : (a ++ b).data = a.data ++ b.data := rfl

theorem string_mk_data (s : String) : (⟨s.data⟩ : String) = s := rfl

theorem stripU_underscore (t : String) : stripU ("_" ++ t) = t := rfl

theorem splitDots_two (a b : String) (hb : '.' ∉ b.data) (ha : '.' ∉ a.data) :
    splitDots (a ++ "." ++ b) = [a, b] := by
  unfold splitDots
  have hd : (a ++ "." ++ b).data = a.data ++ '.' :: b.data := by
    rw [string_data_append, string_data_append, List.append_assoc]
    rfl
  rw [hd, splitCh_append '.' a.data b.data ha, splitCh_of_not_mem '.' b.data hb]
  simp [string_mk_data]

theorem joinDots_two (a b : String) : joinDots [a, b] = a ++ "." ++ b := rfl

theorem parseType_stringify (t p : String) (ht : '.' ∉ t.data) (hp : '.' ∉ p.data) :
    parseType (("_" ++ t) ++ "." ++ ("_" ++ p)) = (t, p) := by
  unfold parseType
  have htu : '.' ∉ ("_" ++ t).data := by
    intro hm
    rw [string_data_append] at hm
    rcases List.mem_append.mp hm with h | h
    · simp at h
    · exact ht h
  have hpu : '.' ∉ ("_" ++ p).data := by
    intro hm
    rw [string_data_append] at hm
    rcases List.mem_append.mp hm with h | h
    · simp at h
    · exact hp h
  rw [splitDots_two ("_" ++ t) ("_" ++ p) hpu htu]
  show (stripU (["_" ++ t, "_" ++ p].headD ""), stripU (["_" ++ t, "_" ++ p].getLastD "")) = (t, p)
  have hlast : (["_" ++ t, "_" ++ p].getLastD "") = "_" ++ p := rfl
  have hhead : (["_" ++ t, "_" ++ p].headD "") = "_" ++ t := rfl
  rw [hlast, hhead, stripU_underscore, stripU_underscore]

theorem splitDots_fqdn (n t p : String) (hn : '.' ∉ n.data) (ht : '.' ∉ t.data)
    (hp : '.' ∉ p.data) :
    splitDots (n ++ "." ++ stringifyType t p ++ ".local")
      = [n, "_" ++ t, "_" ++ p, "local"] := by
  unfold splitDots stringifyType
  have hd : (n ++ "." ++ ("_" ++ t ++ "._" ++ p) ++ ".local").data
      = n.data ++ '.' :: (('_' :: t.data) ++ '.' :: (('_' :: p.data)
          ++ '.' :: "local".data)) := by
    simp only [string_data_append]
    simp
  rw [hd, splitCh_append '.' n.data _ hn]
  have htu : '.' ∉ ('_' :: t.data) := by
    intro hm
    rcases List.mem_cons.mp hm with h | h
    · simp at h
    · exact ht h
  have hpu : '.' ∉ ('_' :: p.data) := by
    intro hm
    rcases List.mem_cons.mp hm with h | h
    · simp at h
    · exact hp h
  rw [splitCh_append '.' ('_' :: t.data) _ htu,
      splitCh_append '.' ('_' :: p.data) _ hpu,
      splitCh_of_not_mem '.' "local".data (by decide)]
  rfl

theorem splitDots_typeLocal (t p : String) (ht : '.' ∉ t.data) (hp : '.' ∉ p.data) :
    splitDots (stringifyType t p ++ ".local") = ["_" ++ t, "_" ++ p, "local"] := by
  unfold splitDots stringifyType
  have hd : (("_" ++ t ++ "._" ++ p) ++ ".local").data
      = ('_' :: t.data) ++ '.' :: (('_' :: p.data) ++ '.' :: "local".data) := by
    simp only [string_data_append]
    simp
  have htu : '.' ∉ ('_' :: t.data) := by
    intro hm
    rcases List.mem_cons.mp hm with h | h
    · simp at h
    · exact ht h
  have hpu : '.' ∉ ('_' :: p.data) := by
    intro hm
    rcases List.mem_cons.mp hm with h | h
    · simp at h
    · exact hp h
  rw [hd, splitCh_append '.' ('_' :: t.data) _ htu,
      splitCh_append '.' ('_' :: p.data) _ hpu,
      splitCh_of_not_mem '.' "local".data (by decide)]
  rfl

theorem takeWhile_dropWhile_append {α : Type} (p : α → Bool) (a b : List α) (x : α)
    (ha : ∀ y ∈ a, p y = true) (hx : p x = false) :
    (a ++ x :: b).takeWhile p = a ∧ (a ++ x :: b).dropWhile p = x :: b := by
  induction a with
  | nil => simp [List.takeWhile_cons, List.dropWhile_cons, hx]
  | cons y ys ih =>
    have hy : p y = true := ha y (by simp)
    obtain ⟨ih1, ih2⟩ := ih (fun z hz => ha z (by simp [hz]))
    simp [List.takeWhile_cons, List.dropWhile_cons, hy, ih1, ih2]

theorem char_eq_of_toNat_61 {c : Char} (h : c.toNat = 61) : c = '=' := by
  have := Char.ofNat_toNat c
  rw [h] at this
  exact this.symm

theorem map_ofNat_toNat (l : List Char) : (l.map Char.toNat).map Char.ofNat = l := by
  induction l with
  | nil => rfl
  | cons c cs ih => simp [ih, Char.ofNat_toNat]

theorem map_eq_self_of_mem {α : Type} (f : α → α) (l : List α)
    (h : ∀ a ∈ l, f a = a) : l.map f = l := by
  induction l with
  | nil => rfl
  | cons c cs ih =>
    rw [List.map_cons, h c (by simp), ih (fun a ha => h a (by simp [ha]))]

theorem txtDecodeGo_cons (b : Nat) (rest : List Nat) (acc : List (String × String)) :
    txtDecodeGo (b :: rest) acc =
      txtDecodeGo (rest.drop b)
        (match splitEq (rest.take b) with
         | none => acc
         | some (k, v) =>
           if (acc.map Prod.fst).contains k then acc else acc ++ [(k, v)]) := by
  rw [txtDecodeGo]

theorem splitEq_seg (k v : String) (hk : k ≠ "")
    (hkc : ∀ c ∈ k.data, c ≠ '=' ∧ Char.toLower c = c) :
    splitEq ((k ++ "=" ++ v).data.map Char.toNat) = some (k, v) := by
  have hsdata : (k ++ "=" ++ v).data = k.data ++ '=' :: v.data := by
    rw [string_data_append, string_data_append, List.append_assoc]
    rfl
  have hbytes : ((k ++ "=" ++ v).data.map Char.toNat)
      = k.data.map Char.toNat ++ 61 :: v.data.map Char.toNat := by
    rw [hsdata]
    simp
  have hkb : ∀ y ∈ k.data.map Char.toNat, (decide (y ≠ 61)) = true := by
    intro y hy
    rw [List.mem_map] at hy
    obtain ⟨c, hc, rfl⟩ := hy
    simp only [decide_eq_true_eq]
    intro h61
    exact (hkc c hc).1 (char_eq_of_toNat_61 h61)
  obtain ⟨htake, hdrop⟩ := takeWhile_dropWhile_append (fun y => decide (y ≠ 61))
    (k.data.map Char.toNat) (v.data.map Char.toNat) 61 hkb (by simp)
  have hne : (k.data.map Char.toNat).isEmpty = false := by
    have hd : k.data ≠ [] := by
      intro hd
      exact hk (by rw [← string_mk_data k, hd])
    cases hke : k.data with
    | nil => exact absurd hke hd
    | cons c cs => simp [hke]
  have hkey : (((k.data.map Char.toNat).map Char.ofNat).map Char.toLower) = k.data := by
    rw [map_ofNat_toNat]
    exact map_eq_self_of_mem Char.toLower k.data (fun c hc => (hkc c hc).2)
  have hval : bytesToString (v.data.map Char.toNat) = v := by
    unfold bytesToString
    rw [map_ofNat_toNat, string_mk_data]
  have hkeystr : (⟨((k.data.map Char.toNat).map Char.ofNat).map Char.toLower⟩ : String) = k := by
    rw [hkey, string_mk_data]
  simp only [splitEq]
  rw [hbytes, htake, hdrop]
  simp only [hne, Bool.false_eq_true, if_false]
  rw [hkeystr, hval]

theorem txtDecodeGo_flatMap (m : List (String × String)) (acc : List (String × String))
    (hnodup : (m.map Prod.fst).Nodup)
    (hv : ∀ kv ∈ m, kv.1 ≠ "" ∧ ∀ c ∈ kv.1.data, c ≠ '=' ∧ Char.toLower c = c)
    (hacc : ∀ kv ∈ m, kv.1 ∉ acc.map Prod.fst) :
    txtDecodeGo (m.flatMap txtSeg) acc = acc ++ m := by
  induction m generalizing acc with
  | nil =>
    rw [List.flatMap_nil, txtDecodeGo, List.append_nil]
  | cons kv m' ih =>
    obtain ⟨hk, hkc⟩ := hv kv (by simp)
    have hflat : (kv :: m').flatMap txtSeg
        = (kv.1 ++ "=" ++ kv.2).length
          :: (((kv.1 ++ "=" ++ kv.2).data.map Char.toNat) ++ m'.flatMap txtSeg) := by
      simp [txtSeg, List.flatMap_cons]
    have hlen : (kv.1 ++ "=" ++ kv.2).length
        = ((kv.1 ++ "=" ++ kv.2).data.map Char.toNat).length := by
      rw [List.length_map]
      rfl
    rw [hflat, txtDecodeGo_cons, hlen, List.take_left, List.drop_left]
    rw [splitEq_seg kv.1 kv.2 hk hkc]
    have hcont : ((acc.map Prod.fst).contains kv.1) = false := by
      rw [Bool.eq_false_iff]
      intro hc
      exact (hacc kv (by simp)) (by simpa [List.elem_iff] using hc)
    show txtDecodeGo (m'.flatMap txtSeg)
        (if (acc.map Prod.fst).contains kv.1 = true then acc
         else acc ++ [(kv.1, kv.2)]) = acc ++ kv :: m'
    rw [hcont]
    simp only [Bool.false_eq_true, if_false]
    have hnodup' : (m'.map Prod.fst).Nodup := by
      rw [List.map_cons, List.nodup_cons] at hnodup
      exact hnodup.2
    have hhead : kv.1 ∉ m'.map Prod.fst := by
      rw [List.map_cons, List.nodup_cons] at hnodup
      exact hnodup.1
    have hacc' : ∀ kv' ∈ m', kv'.1 ∉ (acc ++ [(kv.1, kv.2)]).map Prod.fst := by
      intro kv' hm hmem
      rw [List.map_append, List.mem_append] at hmem
      rcases hmem with hmem | hmem
      · exact (hacc kv' (by simp [hm])) hmem
      · simp only [List.map_cons, List.map_nil, List.mem_singleton] at hmem
        exact hhead (by
          rw [← hmem]
          exact List.mem_map.mpr ⟨kv', hm, rfl⟩)
    rw [ih (acc ++ [(kv.1, kv.2)]) hnodup'
      (fun x hx => hv x (by simp [hx])) hacc']
    simp

theorem txtDecode_txtEncode (m : List (String × String)) (hv : ValidTxt m) :
    txtDecode (txtEncode m) = m := by
  obtain ⟨hnodup, hrest⟩ := hv
  cases m with
  | nil =>
    show txtDecode [0] = []
    unfold txtDecode
    rw [txtDecodeGo_cons]
    simp only [List.take_nil, List.drop_nil]
    rw [show splitEq [] = none from rfl]
    rw [txtDecodeGo]
  | cons kv m' =>
    unfold txtDecode txtEncode
    rw [if_neg (by simp)]
    exact txtDecodeGo_flatMap (kv :: m') [] hnodup
      (fun x hx => ⟨(hrest x hx).1,
        fun c hc => ⟨((hrest x hx).2.1 c hc).2.1, ((hrest x hx).2.1 c hc).2.2⟩⟩)
      (by simp)

theorem filter_map_all_false {α β : Type} (l : List α) (f : α → β) (pfn : β → Bool)
    (h : ∀ a ∈ l, pfn (f a) = false) : (l.map f).filter pfn = [] := by
  induction l with
  | nil => rfl
  | cons x xs ih =>
    rw [List.map_cons, List.filter_cons_of_neg (by simp [h x (by simp)])]
    exact ih (fun a ha => h a (by simp [ha]))

theorem filter_map_all_true {α β : Type} (l : List α) (f : α → β) (pfn : β → Bool)
    (h : ∀ a ∈ l, pfn (f a) = true) : (l.map f).filter pfn = l.map f := by
  induction l with
  | nil => rfl
  | cons x xs ih =>
    rw [List.map_cons, List.filter_cons_of_pos (h x (by simp)), ih
      (fun a ha => h a (by simp [ha]))]

/-- C1: round-trip.  For every valid publish options record (dot-free
nonempty name, type and protocol, nonempty host, nonzero port, explicit
addresses, a representable TXT mapping, and a type that does not
DNS-collide with the service-enumeration name), materializing the
constructed service's records and feeding exactly those records as one
response packet to a fresh Browser tracking the service's type name
yields exactly one reconstructed descriptor, equal to the options on
name, type, protocol, port, host, addresses (flattened ipv4 then ipv6)
and txt. -/
theorem publish_browse_roundtrip
    (hostname : String) (o : SOpts) (n t p h : String) (prt : Nat)
    (ad : Addresses) (txtm : List (String × String)) (svc : Service)
    (honame : o.name = some n) (hotype : o.type = some t)
    (hoprot : o.protocol = some p) (hohost : o.host = some h)
    (hoport : o.port = some prt) (hosub : o.subtypes = none)
    (hotxt : o.txt = some txtm) (hoaddr : o.addresses = some ad)
    (hmk : Service.make hostname o = .ok svc)
    (hn : n ≠ "") (hnd : '.' ∉ n.data)
    (ht : t ≠ "") (htd : '.' ∉ t.data)
    (hp : p ≠ "") (hpd : '.' ∉ p.data)
    (hh : h ≠ "") (hprt : prt ≠ 0)
    (hwild : dnsEqual "_services._dns-sd._udp.local" (stringifyType t p ++ ".local")
      = false)
    (htxt : ValidTxt txtm) :
    handleResponse [svc.type ++ ".local"] {} { answers := Service.records [] svc }
      = ({ services := [roundTripDescriptor n t p h prt ad txtm]
           serviceMap := [n ++ "." ++ stringifyType t p ++ ".local"] },
         [Ev.up (roundTripDescriptor n t p h prt ad txtm)])
    ∧ (roundTripDescriptor n t p h prt ad txtm).name = n
    ∧ (roundTripDescriptor n t p h prt ad txtm).type = t
    ∧ (roundTripDescriptor n t p h prt ad txtm).protocol = p
    ∧ (roundTripDescriptor n t p h prt ad txtm).port = prt
    ∧ (roundTripDescriptor n t p h prt ad txtm).host = h
    ∧ (roundTripDescriptor n t p h prt ad txtm).addresses = ad.ipv4 ++ ad.ipv6
    ∧ (roundTripDescriptor n t p h prt ad txtm).txt = txtm := by
  have hsvc : svc =
      { name := n
        protocol := p
        type := stringifyType t p
        host := h
        port := prt
        addresses := some ad
        fqdn := n ++ "." ++ stringifyType t p ++ ".local"
        subtypes := none
        txt := txtm
        flush := jsBool o.flush
        published := false } := by
    unfold Service.make at hmk
    rw [honame, hotype, hoprot, hohost, hoport, hosub, hotxt, hoaddr] at hmk
    simp only [jsStr, jsNat] at hmk
    rw [if_neg hn, if_neg ht, if_neg hprt, if_neg hp, if_neg hh] at hmk
    simp only [Option.getD_some] at hmk
    injection hmk with he
    exact he.symm
  subst hsvc
  have hsplitf := splitDots_fqdn n t p hnd htd hpd
  have hsplitt := splitDots_typeLocal t p htd hpd
  have hparse := parseType_stringify t p htd hpd
  have htxtrt := txtDecode_txtEncode txtm htxt
  refine ⟨?_, rfl, rfl, rfl, rfl, rfl, rfl, rfl⟩
  simp [handleResponse, handleName, goodbyePhase, additionPhase, addAll,
    removeAll, goodbyes, buildServicesFor, Service.records, rrPtrServices,
    rrPtr, rrSrv, rrTxt, rrA, rrAaaa, RData.asStr, RData.target, RData.port,
    RData.asBytes, applySrvTxt, processMatch, addService, removeService,
    List.filter_append, List.filter_map, Function.comp_def, dnsEqual_refl, hwild,
    hsplitf, hsplitt, hparse, htxtrt, hn, roundTripDescriptor, joinDots]

theorem publish_browse_roundtrip_witness :
    handleResponse [c1svc.type ++ ".local"] {} { answers := Service.records [] c1svc }
      = ({ services := [roundTripDescriptor "Foo Bar" "http" "tcp" "example.com" 3000
             { ipv4 := ["13.14.15.16"], ipv6 := ["2001:db8::1"] } [("foo", "bar")]]
           serviceMap := ["Foo Bar" ++ "." ++ stringifyType "http" "tcp" ++ ".local"] },
         [Ev.up (roundTripDescriptor "Foo Bar" "http" "tcp" "example.com" 3000
             { ipv4 := ["13.14.15.16"], ipv6 := ["2001:db8::1"] } [("foo", "bar")])])
    ∧ (roundTripDescriptor "Foo Bar" "http" "tcp" "example.com" 3000
        { ipv4 := ["13.14.15.16"], ipv6 := ["2001:db8::1"] } [("foo", "bar")]).name = "Foo Bar"
    ∧ (roundTripDescriptor "Foo Bar" "http" "tcp" "example.com" 3000
        { ipv4 := ["13.14.15.16"], ipv6 := ["2001:db8::1"] } [("foo", "bar")]).type = "http"
    ∧ (roundTripDescriptor "Foo Bar" "http" "tcp" "example.com" 3000
        { ipv4 := ["13.14.15.16"], ipv6 := ["2001:db8::1"] } [("foo", "bar")]).protocol = "tcp"
    ∧ (roundTripDescriptor "Foo Bar" "http" "tcp" "example.com" 3000
        { ipv4 := ["13.14.15.16"], ipv6 := ["2001:db8::1"] } [("foo", "bar")]).port = 3000
    ∧ (roundTripDescriptor "Foo Bar" "http" "tcp" "example.com" 3000
        { ipv4 := ["13.14.15.16"], ipv6 := ["2001:db8::1"] } [("foo", "bar")]).host = "example.com"
    ∧ (roundTripDescriptor "Foo Bar" "http" "tcp" "example.com" 3000
        { ipv4 := ["13.14.15.16"], ipv6 := ["2001:db8::1"] } [("foo", "bar")]).addresses
        = ["13.14.15.16"] ++ ["2001:db8::1"]
    ∧ (roundTripDescriptor "Foo Bar" "http" "tcp" "example.com" 3000
        { ipv4 := ["13.14.15.16"], ipv6 := ["2001:db8::1"] } [("foo", "bar")]).txt
        = [("foo", "bar")] :=
  publish_browse_roundtrip "myhost" c1opts "Foo Bar" "http" "tcp" "example.com" 3000
    { ipv4 := ["13.14.15.16"], ipv6 := ["2001:db8::1"] } [("foo", "bar")] c1svc
    rfl rfl rfl rfl rfl rfl rfl rfl rfl
    (by decide) (by decide) (by decide) (by decide) (by decide) (by decide)
    (by decide) (by decide) (by decide) (by unfold ValidTxt; decide)

theorem processMatch_cases (st : BState) (evs : List Ev) (c : DSvc) :
    (processMatch (st, evs) c = (st, evs))
    ∨ (∃ ex : DSvc, ex.fqdn = c.fqdn
        ∧ processMatch (st, evs) c
          = ({ st with services := (updateFirst st.services
                (fun x => x.fqdn == c.fqdn)
                (fun x => { x with subtypes := x.subtypes ++ [c.subtypes.headD ""] })) },
             evs ++ [Ev.up { ex with subtypes := ex.subtypes ++ [c.subtypes.headD ""] }]))
    ∨ (st.serviceMap.contains c.fqdn = false
        ∧ processMatch (st, evs) c
          = ({ services := st.services ++ [c]
               serviceMap := st.serviceMap ++ [c.fqdn] }, evs ++ [Ev.up c])) := by
  simp only [processMatch]
  by_cases hcont : st.serviceMap.contains c.fqdn = true
  · rw [if_pos hcont]
    by_cases hsub : c.subtypes.isEmpty = true
    · rw [if_pos hsub]
      exact Or.inl rfl
    · rw [if_neg hsub]
      cases hfind : st.services.find? (fun x => x.fqdn == c.fqdn) with
      | none => exact Or.inl rfl
      | some ex =>
        dsimp only
        by_cases hhas : ex.subtypes.contains (c.subtypes.headD "") = true
        · rw [if_pos hhas]
          exact Or.inl rfl
        · rw [if_neg hhas]
          have hbeq := List.find?_some hfind
          exact Or.inr (Or.inl ⟨ex, eq_of_beq hbeq, rfl⟩)
  · rw [Bool.not_eq_true] at hcont
    have hnmem : c.fqdn ∉ st.serviceMap := by
      intro hm
      have h2 : st.serviceMap.contains c.fqdn = true := List.elem_iff.mpr hm
      exact Bool.false_ne_true (hcont ▸ h2)
    refine Or.inr (Or.inr ⟨hcont, ?_⟩)
    rw [hcont]
    simp [addService, hcont, hnmem]

theorem processMatch_acc (st : BState) (evs : List Ev) (c : DSvc) :
    processMatch (st, evs) c
      = ((processMatch (st, []) c).1, evs ++ (processMatch (st, []) c).2) := by
  simp only [processMatch]
  by_cases hcont : st.serviceMap.contains c.fqdn = true
  · rw [if_pos hcont, if_pos hcont]
    by_cases hsub : c.subtypes.isEmpty = true
    · rw [if_pos hsub, if_pos hsub]
      simp
    · rw [if_neg hsub, if_neg hsub]
      cases hfind : st.services.find? (fun x => x.fqdn == c.fqdn) with
      | none => simp
      | some ex =>
        dsimp only
        by_cases hhas : ex.subtypes.contains (c.subtypes.headD "") = true
        · rw [if_pos hhas, if_pos hhas]
          simp
        · rw [if_neg hhas, if_neg hhas]
          simp
  · rw [Bool.not_eq_true] at hcont
    have hnmem : c.fqdn ∉ st.serviceMap := by
      intro hm
      have h2 : st.serviceMap.contains c.fqdn = true := List.elem_iff.mpr hm
      exact Bool.false_ne_true (hcont ▸ h2)
    simp [addService, hcont, hnmem]

theorem addAll_acc (cands : List DSvc) (st : BState) (evs : List Ev) :
    cands.foldl processMatch (st, evs)
      = ((addAll st cands).1, evs ++ (addAll st cands).2) := by
  induction cands generalizing st evs with
  | nil => simp [addAll]
  | cons c rest ih =>
    have hpm0 : processMatch (st, ([] : List Ev)) c
        = ((processMatch (st, []) c).1, (processMatch (st, []) c).2) := by
      rw [processMatch_acc st ([] : List Ev) c, List.nil_append]
    have h2 : addAll st (c :: rest)
        = ((addAll (processMatch (st, []) c).1 rest).1,
           (processMatch (st, []) c).2 ++ (addAll (processMatch (st, []) c).1 rest).2) := by
      show rest.foldl processMatch (processMatch (st, []) c) = _
      rw [hpm0, ih]
    rw [List.foldl_cons, processMatch_acc st evs c, ih, h2]
    simp [List.append_assoc]

theorem addAll_cons (st : BState) (c : DSvc) (cands : List DSvc) :
    addAll st (c :: cands)
      = ((addAll (processMatch (st, []) c).1 cands).1,
         (processMatch (st, []) c).2 ++ (addAll (processMatch (st, []) c).1 cands).2) := by
  have hpm0 : processMatch (st, ([] : List Ev)) c
      = ((processMatch (st, []) c).1, (processMatch (st, []) c).2) := by
    rw [processMatch_acc st ([] : List Ev) c, List.nil_append]
  show cands.foldl processMatch (processMatch (st, []) c) = _
  rw [hpm0, addAll_acc]

theorem buildServicesFor_eq (name : String) (pk : Packet) :
    buildServicesFor name pk
      = ((liveRecords pk).filter
          (fun rr => rr.rtype == "PTR" && dnsEqual rr.name name)).filterMap
          (candidateFor pk) := by
  show (((liveRecords pk).filter
      (fun rr => rr.rtype == "PTR" && dnsEqual rr.name name)).map
      (candidateFor pk)).filterMap id = _
  rw [List.filterMap_map]
  rfl

theorem foldl_applySrvTxt_srv (ptr : Rec) (l : List Rec) (svc : DSvc) :
    ((l.foldl (applySrvTxt ptr) svc).name = svc.name
      ∧ (l.foldl (applySrvTxt ptr) svc).fqdn = svc.fqdn)
    ∨ ∃ rr ∈ l, rr.rtype = "SRV"
        ∧ (l.foldl (applySrvTxt ptr) svc).fqdn = rr.name := by
  induction l generalizing svc with
  | nil => exact Or.inl ⟨rfl, rfl⟩
  | cons rr rest ih =>
    rw [List.foldl_cons]
    by_cases hs : (rr.rtype == "SRV") = true
    · rcases ih (applySrvTxt ptr svc rr) with ⟨hname, hfqdn⟩ | ⟨rr2, hm, ht2, hf⟩
      · refine Or.inr ⟨rr, by simp, eq_of_beq hs, ?_⟩
        rw [hfqdn]
        show (applySrvTxt ptr svc rr).fqdn = rr.name
        simp [applySrvTxt, hs]
      · exact Or.inr ⟨rr2, by simp [hm], ht2, hf⟩
    · have hpres : (applySrvTxt ptr svc rr).name = svc.name
          ∧ (applySrvTxt ptr svc rr).fqdn = svc.fqdn := by
        unfold applySrvTxt
        rw [if_neg hs]
        by_cases ht : (rr.rtype == "TXT") = true
        · rw [if_pos ht]
          exact ⟨rfl, rfl⟩
        · rw [if_neg ht]
          exact ⟨rfl, rfl⟩
      rcases ih (applySrvTxt ptr svc rr) with ⟨hname, hfqdn⟩ | ⟨rr2, hm, ht2, hf⟩
      · exact Or.inl ⟨hname.trans hpres.1, hfqdn.trans hpres.2⟩
      · exact Or.inr ⟨rr2, by simp [hm], ht2, hf⟩

theorem candidateFor_some_srv (pk : Packet) (ptr : Rec) (c : DSvc)
    (h : candidateFor pk ptr = some c) :
    ∃ rr ∈ liveRecords pk, rr.rtype = "SRV" ∧ c.fqdn = rr.name := by
  simp only [candidateFor] at h
  by_cases hn : (((liveRecords pk).filter (fun rr =>
      (rr.rtype == "SRV" || rr.rtype == "TXT") && dnsEqual rr.name ptr.data.asStr)).foldl
      (applySrvTxt ptr) {}).name = ""
  · rw [if_pos hn] at h
    cases h
  · rw [if_neg hn] at h
    obtain rfl : _ = c := Option.some.inj h
    rcases foldl_applySrvTxt_srv ptr ((liveRecords pk).filter (fun rr =>
        (rr.rtype == "SRV" || rr.rtype == "TXT") && dnsEqual rr.name ptr.data.asStr)) {}
      with ⟨hname, _⟩ | ⟨rr, hm, ht, hf⟩
    · exact absurd (hname.trans rfl) hn
    · exact ⟨rr, List.mem_of_mem_filter hm, ht, hf⟩

theorem processMatch_up_fqdn (st : BState) (cand c : DSvc)
    (h : Ev.up c ∈ (processMatch (st, []) cand).2) : c.fqdn = cand.fqdn := by
  rcases processMatch_cases st [] cand with he | ⟨ex, hexf, he⟩ | ⟨_, he⟩ <;>
    rw [he] at h
  · simp at h
  · simp only [List.nil_append, List.mem_singleton] at h
    have h2 : c = { ex with subtypes := ex.subtypes ++ [cand.subtypes.headD ""] } :=
      Ev.up.inj h
    rw [h2]
    exact hexf
  · simp only [List.nil_append, List.mem_singleton] at h
    have h2 : c = cand := Ev.up.inj h
    rw [h2]

theorem addAll_up_fqdn (cands : List DSvc) (st : BState) (c : DSvc)
    (h : Ev.up c ∈ (addAll st cands).2) : ∃ cand ∈ cands, c.fqdn = cand.fqdn := by
  induction cands generalizing st with
  | nil => simp [addAll] at h
  | cons cd rest ih =>
    rw [addAll_cons] at h
    have h2 : Ev.up c ∈ (processMatch (st, []) cd).2
        ++ (addAll (processMatch (st, []) cd).1 rest).2 := h
    rcases List.mem_append.mp h2 with hl | hr
    · exact ⟨cd, by simp, processMatch_up_fqdn st cd c hl⟩
    · obtain ⟨cand, hcm, hcf⟩ := ih _ hr
      exact ⟨cand, by simp [hcm], hcf⟩

theorem additionPhase_up_srv (st : BState) (n : String) (pk : Packet) (c : DSvc)
    (h : Ev.up c ∈ (additionPhase st n pk).2) :
    ∃ rr ∈ liveRecords pk, rr.rtype = "SRV" ∧ c.fqdn = rr.name := by
  simp only [additionPhase] at h
  by_cases hbe : (buildServicesFor n pk).isEmpty = true
  · rw [if_pos hbe] at h
    simp at h
  · rw [if_neg hbe] at h
    obtain ⟨cand, hcm, hcf⟩ := addAll_up_fqdn (buildServicesFor n pk) st c h
    rw [buildServicesFor_eq] at hcm
    obtain ⟨ptr, hpm, hps⟩ := List.mem_filterMap.mp hcm
    obtain ⟨rr, hrm, hrt, hrf⟩ := candidateFor_some_srv pk ptr cand hps
    exact ⟨rr, hrm, hrt, hcf.trans hrf⟩

theorem removeAll_no_up_mem (ds : List String) (st : BState) (c : DSvc)
    (h : Ev.up c ∈ (removeAll st ds).2) : False := by
  have h0 := removeAll_no_up ds st
  have h1 := List.countP_eq_zero.mp h0 (Ev.up c) h
  simp [Ev.isUp] at h1

theorem handleResponse_up_srv (nm : List String) (st : BState) (pk : Packet)
    (c : DSvc) (h : Ev.up c ∈ (handleResponse nm st pk).2) :
    ∃ rr ∈ liveRecords pk, rr.rtype = "SRV" ∧ c.fqdn = rr.name := by
  suffices hgen : ∀ (nm : List String) (st : BState) (evs : List Ev),
      Ev.up c ∈ (nm.foldl (fun acc n => handleName acc n pk) (st, evs)).2 →
      Ev.up c ∈ evs ∨ ∃ rr ∈ liveRecords pk, rr.rtype = "SRV" ∧ c.fqdn = rr.name by
    rcases hgen nm st [] h with h2 | h2
    · simp at h2
    · exact h2
  intro nm
  induction nm with
  | nil => intro st evs h2; exact Or.inl h2
  | cons n rest ih =>
    intro st evs h2
    rw [List.foldl_cons] at h2
    rcases ih _ _ h2 with h3 | h3
    · have h4 : Ev.up c ∈ evs ++ (goodbyePhase st n pk).2
          ++ (additionPhase (goodbyePhase st n pk).1 n pk).2 := h3
      rcases List.mem_append.mp h4 with h5 | h5
      · rcases List.mem_append.mp h5 with h6 | h6
        · exact Or.inl h6
        · exact (removeAll_no_up_mem (goodbyes n pk) st c h6).elim
      · exact Or.inr (additionPhase_up_srv (goodbyePhase st n pk).1 n pk c h5)
    · exact Or.inr h3

/-- C3 (amended): a PTR whose correlated records lack an SRV yields no
candidate and no `up` for it — `candidateFor`, the per-PTR step whose
filter-map over the matching live PTRs is exactly `buildServicesFor`,
returns `none` for any PTR with no DNS-matching live SRV, even in a
packet that also announces other services in full, and every `up`
emitted while handling a packet carries the name of one of its live
SRV records; a missing TXT, by contrast, does not suppress the
candidate or the `up`. -/
theorem missing_srv_no_candidate (pk : Packet) (name : String) (ptr : Rec)
    (nm : List String) (st : BState) (c : DSvc)
    (hnosrv : ∀ rr ∈ liveRecords pk, rr.rtype = "SRV" →
        dnsEqual rr.name ptr.data.asStr = false) :
    candidateFor pk ptr = none
    ∧ buildServicesFor name pk
        = ((liveRecords pk).filter
            (fun rr => rr.rtype == "PTR" && dnsEqual rr.name name)).filterMap
            (candidateFor pk)
    ∧ (Ev.up c ∈ (handleResponse nm st pk).2 →
        ∃ rr ∈ liveRecords pk, rr.rtype = "SRV" ∧ c.fqdn = rr.name) := by
  refine ⟨?_, buildServicesFor_eq name pk,
    fun h => handleResponse_up_srv nm st pk c h⟩
  have hfold : ∀ rr ∈ (liveRecords pk).filter (fun rr =>
      (rr.rtype == "SRV" || rr.rtype == "TXT") && dnsEqual rr.name ptr.data.asStr),
      (rr.rtype == "SRV") = false := by
    intro rr hrr
    rw [List.mem_filter] at hrr
    obtain ⟨hrrMem, hrrCond⟩ := hrr
    rw [Bool.and_eq_true] at hrrCond
    by_cases hs : rr.rtype = "SRV"
    · have := hnosrv rr hrrMem hs
      rw [this] at hrrCond
      exact absurd hrrCond.2 (by simp)
    · simpa using hs
  simp only [candidateFor]
  rw [if_pos ((foldl_applySrvTxt_name ptr _ {} hfold).trans rfl)]

theorem missing_srv_no_candidate_witness :
    candidateFor mixedPk ySrvLessPtr = none
    ∧ buildServicesFor "_http._tcp.local" mixedPk
        = ((liveRecords mixedPk).filter
            (fun rr => rr.rtype == "PTR" && dnsEqual rr.name "_http._tcp.local")).filterMap
            (candidateFor mixedPk)
    ∧ (Ev.up xDesc ∈ (handleResponse ["_http._tcp.local"] {} mixedPk).2 →
        ∃ rr ∈ liveRecords mixedPk, rr.rtype = "SRV" ∧ xDesc.fqdn = rr.name) :=
  missing_srv_no_candidate mixedPk "_http._tcp.local" ySrvLessPtr
    ["_http._tcp.local"] {} xDesc (by decide)

